import Mathlib

/-!
Verification of the photo-checker image recognition service.

The Go source is shallowly embedded here.  Conventions:

* A decoded raster image is modelled by its pixel content, a total function
  from integer coordinates to grayscale intensity (Go's image library returns
  the zero value for reads outside the stored bounds, so total functions are
  faithful).
* The third-party resampling library (imaging.Resize + imaging.Grayscale) is
  an external collaborator, not code of this repository; every function that
  calls it is parameterised by the resampling function, so all theorems hold
  for an arbitrary resampler, in particular the real Lanczos one.
* Go float64 arithmetic is modelled exactly: by rationals where the source
  only adds, divides and compares integers scaled by powers of two (the DCT
  hash, the Hamming score), and by real numbers where square roots and
  arctangents appear (cosine similarity, the HOG extractor).
* Go strings of '0'/'1' are List Char; Go maps keyed by the hash string are
  association lists with key-overwrite insertion, scanned in list order
  (Go map iteration order is unspecified; theorems about counts are
  order-independent, and counterexamples exhibit one encounter order).
-/

/-- A decoded raster image: grayscale intensity (a byte value) at integer
pixel coordinates.  Out-of-bounds reads yield whatever the function says,
matching Go's total `At`. -/
abbrev Img : Type := Nat → Nat → Nat

/-! ## Fingerprint generator: computeDCTHash / ComputeDCTHash

`api/handler/handler.go` and `helper/image/image.go` build a 72-bit hash
(16 block bits + 56 horizontal-gradient bits); `main.go` and
`internal/imageprocessing` (unnamed part_007) additionally append 7 diagonal
bits, giving 79 bits.  Both operate on the image resized to 32x32 and
converted to grayscale.  All arithmetic (sums of bytes, division by the
pixel count, comparisons) is exact in binary floating point, so modelling
it with rationals is faithful. -/

/-- The pixel coordinates scanned for block (bx, byy) of the 32x32 grayscale
image, in the row-major order of the two nested loops of computeDCTHash.
The source loop bounds are `y < (by+1)*8 && y < 32` (same for x); the
`< 32` clamp is the trailing filter. -/
def blockPixels (bx byy : Nat) : List (Nat × Nat) :=
  ((List.range 8).flatMap (fun dy =>
    (List.range 8).map (fun dx => (bx * 8 + dx, byy * 8 + dy)))).filter
    (fun p => p.1 < 32 && p.2 < 32)

/-- `sum` accumulated over a block by computeDCTHash. -/
def blockSum (g : Img) (bx byy : Nat) : ℚ :=
  ((blockPixels bx byy).map (fun p => (g p.1 p.2 : ℚ))).sum

/-- `count` accumulated over a block by computeDCTHash. -/
def blockCount (bx byy : Nat) : Nat :=
  (blockPixels bx byy).length

/-- `blockValues`: the mean intensity of each of the 4x4 blocks, in the
outer-`by`/inner-`bx` order of the source, guarded by `if count > 0`. -/
def blockValues (g : Img) : List ℚ :=
  (List.range 4).flatMap (fun byy =>
    (List.range 4).flatMap (fun bx =>
      if 0 < blockCount bx byy then
        [blockSum g bx byy / (blockCount bx byy : ℚ)]
      else []))

/-- `avg`: the global mean of the block means. -/
def dctAvg (g : Img) : ℚ :=
  (blockValues g).sum / ((blockValues g).length : ℚ)

/-- The 16 coarse bits: '1' where the block mean is >= the global mean. -/
def blockBits (g : Img) : List Char :=
  (blockValues g).map (fun v => if dctAvg g ≤ v then '1' else '0')

/-- The 8x7 horizontal-comparison bits: '1' where the sample at (x*4, y*4) is
strictly brighter than the sample at ((x+1)*4, y*4). -/
def rowPairBits (g : Img) : List Char :=
  (List.range 8).flatMap (fun y =>
    (List.range 7).map (fun x =>
      if g ((x + 1) * 4) (y * 4) < g (x * 4) (y * 4) then '1' else '0'))

/-- The 7 diagonal-comparison bits of the 79-bit variant. -/
def diagBits (g : Img) : List Char :=
  (List.range 7).map (fun i =>
    if g ((i + 1) * 4) ((i + 1) * 4) < g (i * 4) (i * 4) then '1' else '0')

/-- computeDCTHash of api/handler/handler.go (identical text in
helper/image/image.go as ComputeDCTHash): coarse block bits then horizontal
comparison bits of the 32x32 grayscale resample.  `resizeGray` stands for
`imaging.Grayscale (imaging.Resize img 32 32 Lanczos)`. -/
def computeDCTHash (resizeGray : Img → Img) (img : Img) : List Char :=
  let gray := resizeGray img
  blockBits gray ++ rowPairBits gray

/-- ComputeDCTHash of internal/imageprocessing (unnamed part_007), identical
to the variant in main.go: the 72 bits above followed by 7 diagonal bits. -/
def ComputeDCTHash (resizeGray : Img → Img) (img : Img) : List Char :=
  let gray := resizeGray img
  blockBits gray ++ rowPairBits gray ++ diagBits gray

/-! ## Similarity scorers -/

/-- The error produced when fingerprints of different lengths are compared
(ErrHashLengthMismatch in internal/imageprocessing, equivalent fmt.Errorf
messages in the other variants). -/
inductive HashErr : Type where
  | lengthMismatch : HashErr
deriving DecidableEq

/-- HammingDistance (internal/imageprocessing/utils.go, identical logic in
helper/image/image.go, handler.go and main.go): positionwise character
difference count of two equal-length strings, error on length mismatch. -/
def HammingDistance (hash1 hash2 : List Char) : Except HashErr Nat :=
  if hash1.length ≠ hash2.length then .error .lengthMismatch
  else .ok ((hash1.zip hash2).countP (fun p => p.1 ≠ p.2))

/-- HashSimilarity (internal/imageprocessing/utils.go):
`100.0 - dist/maxDistance*100.0` where maxDistance is the length. -/
def HashSimilarity (hash1 hash2 : List Char) : Except HashErr ℚ :=
  match HammingDistance hash1 hash2 with
  | .error e => .error e
  | .ok dist => .ok (100 - ((dist : ℚ) / (hash1.length : ℚ)) * 100)

/-- Reference definition of the Hamming distance as the spec words it: the
number of index positions at which the two strings hold different
characters. -/
def hammingRef (hash1 hash2 : List Char) : Nat :=
  ((List.range hash1.length).filter
    (fun i => hash1.getD i ' ' ≠ hash2.getD i ' ')).length

/-- cosineSimilarity (api/handler/handler.go, identical text in
helper/image/image.go as CosineSimilarity): 0 on length mismatch or
nonpositive squared norm, otherwise dot/(sqrt(normA)*sqrt(normB))*100. -/
noncomputable def cosineSimilarity (a b : List ℝ) : ℝ :=
  if a.length ≠ b.length then 0
  else
    let dotProduct := ((a.zip b).map (fun p => p.1 * p.2)).sum
    let normA := (a.map (fun x => x * x)).sum
    let normB := (b.map (fun x => x * x)).sum
    if normA ≤ 0 ∨ normB ≤ 0 then 0
    else dotProduct / (Real.sqrt normA * Real.sqrt normB) * 100

/-- Mathematical cosine similarity of two vectors given as lists:
dot product over the product of Euclidean norms. -/
noncomputable def cosineRef (a b : List ℝ) : ℝ :=
  ((a.zip b).map (fun p => p.1 * p.2)).sum /
    (Real.sqrt ((a.map (fun x => x * x)).sum) *
      Real.sqrt ((b.map (fun x => x * x)).sum))

/-- The spec's rescaling of a cosine value from [-1, 1] to [0, 100]. -/
noncomputable def rescaleCosine (c : ℝ) : ℝ := (c + 1) * 50

/-- The error CompareFeatures returns when the feature vectors have
different dimensions ("feature vectors have different dimensions"). -/
inductive MLErr : Type where
  | dimensionMismatch : MLErr
deriving DecidableEq

/-- CompareFeatures (internal/imageprocessing/ml.go): unlike the built-in
cosineSimilarity, a length mismatch is a hard error; a zero norm yields the
non-fatal score 0; otherwise dot/(sqrt(norm1)*sqrt(norm2))*100.  The source
multiplies float32 components and widens the products to float64; in the
exact-real model the widening is the identity.  Its caller in
internal/database falls back to hash similarity when this errors. -/
noncomputable def CompareFeatures (features1 features2 : List ℝ) :
    Except MLErr ℝ :=
  if features1.length ≠ features2.length then .error .dimensionMismatch
  else
    let dotProduct := ((features1.zip features2).map (fun p => p.1 * p.2)).sum
    let norm1 := (features1.map (fun x => x * x)).sum
    let norm2 := (features2.map (fun x => x * x)).sum
    if norm1 = 0 ∨ norm2 = 0 then .ok 0
    else .ok (dotProduct / (Real.sqrt norm1 * Real.sqrt norm2) * 100)

/-! ## The handler-package image database (api/handler/handler.go)

`ImageDatabase` there is a map from hash string to imageInfo plus the
process-wide `useML` flag.  The descriptor extractor (extractImageFeatures)
and the fingerprint generator are passed as parameters `extract` and
`chash`; the handler always calls the concrete functions above, and the
theorems hold for every choice, in particular that one. -/

/-- imageInfo of api/handler/handler.go.  The thumbnail and timestamp play
no role in matching and are omitted from the model. -/
structure imageInfo : Type where
  Filename : String
  Hash : List Char
  Features : Option (List ℝ)

/-- ImageDatabase of api/handler/handler.go: the hash-keyed record table and
the useML mode flag. -/
structure ImageDatabase : Type where
  hashes : List (List Char × imageInfo)
  useML : Bool

/-- findMatchByFeatures (handler.go): exhaustive scan tracking the record of
maximum cosine similarity (strict improvement, seeded with "" and 0.0),
skipping records without features; afterwards compares the best score with
the threshold. -/
noncomputable def findMatchByFeatures (records : List (List Char × imageInfo))
    (features : List ℝ) (similarityThreshold : ℝ) : Bool × String × ℝ :=
  let best := records.foldl
    (fun (acc : String × ℝ) entry =>
      match entry.2.Features with
      | none => acc
      | some fs =>
        let similarity := cosineSimilarity features fs
        if acc.2 < similarity then (entry.2.Filename, similarity) else acc)
    ("", 0)
  (if similarityThreshold ≤ best.2 then true else false, best.1, best.2)

/-- The hash-based fallback body of FindMatch (handler.go lines 315-346):
early return on an empty table (keeping the method computed so far), else a
minimum-Hamming-distance scan seeded with the full hash length, similarity
100 - minDistance/maxDistance*100, method reset to "hash". -/
noncomputable def hashFallback (chash : Img → List Char)
    (records : List (List Char × imageInfo)) (img : Img)
    (similarityThreshold : ℝ) (method : String) : Bool × String × ℝ × String :=
  let uploadedHash := chash img
  if records.length = 0 then (false, "", 0, method)
  else
    let best := records.foldl
      (fun (acc : String × Nat) entry =>
        match HammingDistance uploadedHash entry.1 with
        | .error _ => acc
        | .ok distance =>
          if distance < acc.2 then (entry.2.Filename, distance) else acc)
      ("", uploadedHash.length)
    let similarity : ℝ :=
      100 - ((best.2 : ℝ) / (uploadedHash.length : ℝ)) * 100
    (if similarityThreshold ≤ similarity then true else false,
      best.1, similarity, "hash")

/-- FindMatch (handler.go), instrumented: the second component counts how
often the descriptor extractor `extract` is applied to the query image (the
source calls it exactly once, inside `if db.useML`).  `method` starts as
"hash", becomes "ml" inside the ML branch, and is the method value still in
scope when the fallback hits an empty table. -/
noncomputable def FindMatchC (extract : Img → List ℝ) (chash : Img → List Char)
    (db : ImageDatabase) (img : Img) (similarityThreshold : ℝ) :
    (Bool × String × ℝ × String) × Nat :=
  if db.useML then
    let features := extract img
    let r := findMatchByFeatures db.hashes features similarityThreshold
    if r.1 then ((true, r.2.1, r.2.2, "ml"), 1)
    else (hashFallback chash db.hashes img similarityThreshold "ml", 1)
  else (hashFallback chash db.hashes img similarityThreshold "hash", 0)

/-- FindMatch (handler.go): result quadruple
(isMatch, matchedImage, similarity, method). -/
noncomputable def FindMatch (extract : Img → List ℝ) (chash : Img → List Char)
    (db : ImageDatabase) (img : Img) (similarityThreshold : ℝ) :
    Bool × String × ℝ × String :=
  (FindMatchC extract chash db img similarityThreshold).1

/-- Modelled from the spec (section 4.4, hybrid-mode sentence): the greedy
descriptor scan the spec describes, which returns the first record
encountered whose descriptor score already meets or exceeds the threshold.
This is the statement side of claim C1; the source scan is
findMatchByFeatures above. -/
noncomputable def findFirstClearing (records : List (List Char × imageInfo))
    (features : List ℝ) (similarityThreshold : ℝ) : Option (String × ℝ) :=
  match records with
  | [] => none
  | entry :: rest =>
    match entry.2.Features with
    | none => findFirstClearing rest features similarityThreshold
    | some fs =>
      let similarity := cosineSimilarity features fs
      if similarityThreshold ≤ similarity then some (entry.2.Filename, similarity)
      else findFirstClearing rest features similarityThreshold

/-- Reference maximum descriptor score: the supremum of the cosine scores of
the records that carry features, floored at the 0 seed of the source fold. -/
noncomputable def descMax (records : List (List Char × imageInfo))
    (features : List ℝ) : ℝ :=
  records.foldl
    (fun m entry =>
      match entry.2.Features with
      | none => m
      | some fs => max m (cosineSimilarity features fs))
    0

/-- DbError: the caller-visible failures of the index. -/
inductive DbError : Type where
  | duplicateFingerprint (existing : String) : DbError

/-- The Go map assignment `m[k] = v`: replace the entry with key k if one
exists, otherwise add a new entry. -/
def mapInsert {α : Type} (k : List Char) (v : α) (records : List (List Char × α)) :
    List (List Char × α) :=
  if records.any (fun entry => entry.1 = k) then
    records.map (fun entry => if entry.1 = k then (k, v) else entry)
  else records ++ [(k, v)]

/-- AddImage (handler.go): compute the hash and the features, then under the
exclusive lock scan existing records for the same hash, rejecting with the
duplicate error naming the first existing record found, otherwise store via
`db.hashes[hash] = info` and return the hash as the id.  Returns the result
and the new table. -/
noncomputable def AddImage (extract : Img → List ℝ) (chash : Img → List Char)
    (records : List (List Char × imageInfo)) (img : Img) (filename : String) :
    Except DbError (List Char) × List (List Char × imageInfo) :=
  let hash := chash img
  let info : imageInfo := ⟨filename, hash, some (extract img)⟩
  match records.find? (fun entry => entry.2.Hash = hash) with
  | some existing => (.error (.duplicateFingerprint existing.2.Filename), records)
  | none => (.ok hash, mapInsert hash info records)

/-! ## The internal/database package (internal/database/database.go)

This variant keys the same kind of table, with ML features that are present
only when the optional mlRecognizer is set and extraction succeeded; the
extractor is modelled by a parameter `extractF : Img → Option (List ℝ)`
(none = recognizer absent or failed). -/

namespace database

/-- ImageInfo of internal/database/database.go (thumbnail and timestamp
omitted, as above). -/
structure ImageInfo : Type where
  Filename : String
  Hash : List Char
  Features : Option (List ℝ)

/-- SupportedImageFormats (internal/imageprocessing/utils.go): the
recognized extensions. -/
def SupportedImageFormats : List (List Char) :=
  [['.', 'j', 'p', 'g'], ['.', 'j', 'p', 'e', 'g'], ['.', 'p', 'n', 'g'],
   ['.', 'g', 'i', 'f'], ['.', 'b', 'm', 'p'], ['.', 't', 'i', 'f', 'f'],
   ['.', 'w', 'e', 'b', 'p']]

/-- Go's filepath.Ext: the suffix beginning at the final dot, empty when the
name contains no dot. -/
def fileExt (name : List Char) : List Char :=
  if name.contains '.' then
    '.' :: (name.reverse.takeWhile (fun c => c ≠ '.')).reverse
  else []

/-- IsImageFile (internal/imageprocessing/utils.go): lower-case the
extension of the argument and look it up in the supported set. -/
def IsImageFile (filename : List Char) : Bool :=
  SupportedImageFormats.contains ((fileExt filename).map Char.toLower)

/-- One directory entry as os.ReadDir yields it: a name, the directory flag,
and the decoded image when imaging.Open succeeds (none models an unreadable
or undecodable file). -/
structure DirEntry : Type where
  name : List Char
  isDir : Bool
  content : Option Img

/-- The body of the per-file worker of LoadImages (database.go lines 80-116)
applied to the table: skip directories, skip unsupported extensions (the
source passes filepath.Ext(name) to IsImageFile), skip files that fail to
open, otherwise store the record under its hash with `db.hashes[hash] =`. -/
def loadOne (chash : Img → List Char) (extractF : Img → Option (List ℝ))
    (records : List (List Char × ImageInfo)) (entry : DirEntry) :
    List (List Char × ImageInfo) :=
  if entry.isDir then records
  else if ¬ IsImageFile (fileExt entry.name) then records
  else
    match entry.content with
    | none => records
    | some img =>
      let hash := chash img
      mapInsert hash ⟨⟨entry.name⟩, hash, extractF img⟩ records

/-- LoadImages (database.go): every listed entry is processed (the bounded
worker pool affects only timing; each worker's single table write happens
under the exclusive lock); successful records accumulate by Go map
assignment.  The fold order stands for one interleaving of worker
completions; count results below are independent of it. -/
def LoadImages (chash : Img → List Char) (extractF : Img → Option (List ℝ))
    (records : List (List Char × ImageInfo)) (entries : List DirEntry) :
    List (List Char × ImageInfo) :=
  entries.foldl (loadOne chash extractF) records

/-- AddImage (internal/database/database.go): hash, optional features, then
under the exclusive lock reject when some existing record has the same hash
(naming that record), else store and return the hash. -/
def AddImage (chash : Img → List Char) (extractF : Img → Option (List ℝ))
    (records : List (List Char × ImageInfo)) (img : Img) (filename : String) :
    Except DbError (List Char) × List (List Char × ImageInfo) :=
  let hash := chash img
  let info : ImageInfo := ⟨filename, hash, extractF img⟩
  match records.find? (fun entry => entry.2.Hash = hash) with
  | some existing => (.error (.duplicateFingerprint existing.2.Filename), records)
  | none => (.ok hash, mapInsert hash info records)

/-- The number of directory entries that are plain files with a supported
image extension: the N of claim C5. -/
def countSupported (entries : List DirEntry) : Nat :=
  (entries.filter (fun entry =>
    ¬ entry.isDir ∧ IsImageFile (fileExt entry.name))).length

/-- The operations reachable on the index: startup bulk load, explicit
insert, and queries.  FindMatch only reads the table (shared lock), so the
query operation carries no state effect. -/
inductive DbOp : Type where
  | bulkLoad (entries : List DirEntry) : DbOp
  | insert (img : Img) (filename : String) : DbOp
  | query (img : Img) (threshold : ℚ) : DbOp

/-- The state transition of one operation. -/
def dbStep (chash : Img → List Char) (extractF : Img → Option (List ℝ))
    (records : List (List Char × ImageInfo)) : DbOp → List (List Char × ImageInfo)
  | .bulkLoad entries => LoadImages chash extractF records entries
  | .insert img filename => (AddImage chash extractF records img filename).2
  | .query _ _ => records

/-- Running a sequence of operations from the freshly constructed empty
index. -/
def dbRun (chash : Img → List Char) (extractF : Img → Option (List ℝ))
    (ops : List DbOp) : List (List Char × ImageInfo) :=
  ops.foldl (dbStep chash extractF) []

/-- The key/record consistency maintained by every operation: keys are
pairwise distinct and every record is stored under its own hash. -/
def Inv (records : List (List Char × ImageInfo)) : Prop :=
  (records.map Prod.fst).Nodup ∧ ∀ entry ∈ records, entry.2.Hash = entry.1

end database

/-! ## The hash-only variant (main.go) -/

namespace MainApp

/-- imageInfo of main.go: no feature vector. -/
structure imageInfo : Type where
  Filename : String
  Hash : List Char

/-- FindMatch (main.go): hash-only, early return (false, "", 0) on an empty
table, else the minimum-Hamming-distance scan; fully rational arithmetic. -/
def FindMatch (chash : Img → List Char) (records : List (List Char × imageInfo))
    (img : Img) (similarityThreshold : ℚ) : Bool × String × ℚ :=
  let uploadedHash := chash img
  if records.length = 0 then (false, "", 0)
  else
    let best := records.foldl
      (fun (acc : String × Nat) entry =>
        match HammingDistance uploadedHash entry.1 with
        | .error _ => acc
        | .ok distance =>
          if distance < acc.2 then (entry.2.Filename, distance) else acc)
      ("", uploadedHash.length)
    let similarity : ℚ :=
      100 - ((best.2 : ℚ) / (uploadedHash.length : ℚ)) * 100
    (if similarityThreshold ≤ similarity then true else false, best.1, similarity)

end MainApp

/-! ## Handler operation traces (for the mode-toggle claim) -/

/-- The handler operations that touch the database or the mode flag:
ToggleMLHandler with its form value, RecognizeHandler (a FindMatch call),
AddImageHandler (an AddImage call). -/
inductive HOp : Type where
  | toggle (enable : String) : HOp
  | recognize (img : Img) (threshold : ℝ) : HOp
  | add (img : Img) (filename : String) : HOp

/-- The state effect of one handler call.  ToggleMLHandler sets useML to
true on "true", to false on "false", and only reports the status on any
other value; FindMatch takes the shared lock and leaves the state alone;
AddImageHandler delegates to AddImage. -/
noncomputable def hStep (extract : Img → List ℝ) (chash : Img → List Char)
    (db : ImageDatabase) : HOp → ImageDatabase
  | .toggle enable =>
    if enable = "true" then { db with useML := true }
    else if enable = "false" then { db with useML := false }
    else db
  | .recognize _ _ => db
  | .add img filename =>
    { db with hashes := (AddImage extract chash db.hashes img filename).2 }

/-- For each recognize call in the operation sequence, the number of times
FindMatch applied the descriptor extractor to that query image. -/
noncomputable def traceQueryCalls (extract : Img → List ℝ)
    (chash : Img → List Char) (db : ImageDatabase) : List HOp → List Nat
  | [] => []
  | op :: rest =>
    match op with
    | .recognize img threshold =>
      (FindMatchC extract chash db img threshold).2 ::
        traceQueryCalls extract chash (hStep extract chash db op) rest
    | _ => traceQueryCalls extract chash (hStep extract chash db op) rest

/-! ## The built-in HOG descriptor extractor
(api/handler/handler.go extractImageFeatures, identical text in
helper/image/image.go as ExtractImageFeatures)

The extractor works on the 64x64 grayscale resample.  Histogram writes are
modelled through an explicit bounds-checked update returning none on an
out-of-range index, so totality of the embedding is exactly the absence of
the slice-index panic in the source. -/

/-- Go's math.Atan2 on our integer gradients: the argument of the complex
number x + y i, in (-pi, pi], with atan2 0 0 = 0 — matching Go's
convention for these inputs (the gradients are integers, so Go's
negative-zero case never arises). -/
noncomputable def atan2 (y x : ℝ) : ℝ :=
  Complex.arg ⟨x, y⟩

/-- `int((angle + math.Pi) * 8 / math.Pi)`: float-to-int conversion
truncates toward zero, which on this nonnegative value is the floor. -/
noncomputable def binIndexRaw (gy gx : ℤ) : ℤ :=
  ⌊(atan2 (gy : ℝ) (gx : ℝ) + Real.pi) * 8 / Real.pi⌋

/-- The bin index after the `if binIndex == 16 { binIndex = 0 }` remap. -/
noncomputable def binIndex (gy gx : ℤ) : ℤ :=
  if binIndexRaw gy gx = 16 then 0 else binIndexRaw gy gx

/-- `histogram[i] += x`, bounds-checked: none models the Go slice-index
panic. -/
def setAt (l : List ℝ) (i : ℤ) (x : ℝ) : Option (List ℝ) :=
  if h : 0 ≤ i ∧ i.toNat < l.length then
    some (l.set i.toNat (l.get ⟨i.toNat, h.2⟩ + x))
  else none

/-- The pixel coordinates visited for cell (bx, byy): y runs from
byy*20+2 while `y < (byy+1)*20-2 && y < 64`, x likewise; both stop
conditions are monotone, so the filtered 16-element ranges are exactly the
loop iterations. -/
def cellPixels (bx byy : Nat) : List (Nat × Nat) :=
  (((List.range 16).map (fun dy => byy * 20 + 2 + dy)).filter
    (fun y => y < (byy + 1) * 20 - 2 && y < 64)).flatMap (fun y =>
      (((List.range 16).map (fun dx => bx * 20 + 2 + dx)).filter
        (fun x => x < (bx + 1) * 20 - 2 && x < 64)).map (fun x => (x, y)))

/-- The un-normalized orientation histogram of one cell: accumulate the
gradient magnitude of every visited pixel into its orientation bin. -/
noncomputable def cellHistogram (g : Img) (bx byy : Nat) : Option (List ℝ) :=
  (cellPixels bx byy).foldl
    (fun acc p =>
      acc.bind (fun histogram =>
        let gx : ℤ := (g (p.1 + 1) p.2 : ℤ) - (g (p.1 - 1) p.2 : ℤ)
        let gy : ℤ := (g p.1 (p.2 + 1) : ℤ) - (g p.1 (p.2 - 1) : ℤ)
        let magnitude := Real.sqrt (((gx * gx + gy * gy : ℤ) : ℝ))
        setAt histogram (binIndex gy gx) magnitude))
    (some (List.replicate 16 0))

/-- The per-cell normalization: L2 norm with the 1e-6 epsilon under the
square root, each entry divided by it when the norm is positive. -/
noncomputable def normalizeHist (histogram : List ℝ) : List ℝ :=
  let norm := Real.sqrt ((histogram.map (fun v => v * v)).sum + 1 / 1000000)
  histogram.map (fun v => if 0 < norm then v / norm else v)

/-- extractImageFeatures (handler.go): concatenate the nine normalized cell
histograms of the 64x64 grayscale resample, in outer-`by`/inner-`bx`
order.  `resizeGray64` stands for
`imaging.Grayscale (imaging.Resize img 64 64 Lanczos)`.  The value is none
exactly when some histogram write would have indexed out of bounds. -/
noncomputable def extractImageFeatures (resizeGray64 : Img → Img) (img : Img) :
    Option (List ℝ) :=
  let gray := resizeGray64 img
  (List.range 3).foldl
    (fun acc byy =>
      (List.range 3).foldl
        (fun acc2 bx =>
          acc2.bind (fun features =>
            (cellHistogram gray bx byy).map
              (fun histogram => features ++ normalizeHist histogram)))
        acc)
    (some [])

/-! ## Basic facts about the fingerprint generator -/

theorem blockValues_length (g : Img) : (blockValues g).length = 16 := by
  simp only [blockValues, List.length_flatMap, List.map_map]
  norm_num [List.range_succ, apply_ite List.length]
  decide

theorem blockBits_length (g : Img) : (blockBits g).length = 16 := by
  simp [blockBits, blockValues_length]

theorem rowPairBits_length (g : Img) : (rowPairBits g).length = 56 := by
  rw [rowPairBits, List.length_flatMap]
  simp only [Function.comp_def, List.length_map, List.length_range]
  simp [List.range_succ]

theorem diagBits_length (g : Img) : (diagBits g).length = 7 := by
  simp [diagBits]

theorem blockBits_binary (g : Img) : ∀ c ∈ blockBits g, c = '0' ∨ c = '1' := by
  intro c hc
  simp only [blockBits, List.mem_map] at hc
  obtain ⟨v, -, rfl⟩ := hc
  split <;> simp

theorem rowPairBits_binary (g : Img) : ∀ c ∈ rowPairBits g, c = '0' ∨ c = '1' := by
  intro c hc
  simp only [rowPairBits, List.mem_flatMap, List.mem_map] at hc
  obtain ⟨y, -, x, -, rfl⟩ := hc
  split <;> simp

theorem diagBits_binary (g : Img) : ∀ c ∈ diagBits g, c = '0' ∨ c = '1' := by
  intro c hc
  simp only [diagBits, List.mem_map] at hc
  obtain ⟨i, -, rfl⟩ := hc
  split <;> simp

/-- C7: the fingerprint generator is a deterministic function of the pixel
content — identical pixel content yields the identical fingerprint for any
fixed resampler — and every output is a string over the characters
'0'/'1' of one constant length: 72 for the handler/helper computeDCTHash,
79 for the imageprocessing/main ComputeDCTHash. -/
theorem c7_fingerprint_deterministic_fixed_length
    (resizeGray : Img → Img) (img1 img2 : Img) :
    (img1 = img2 →
      computeDCTHash resizeGray img1 = computeDCTHash resizeGray img2) ∧
    (computeDCTHash resizeGray img1).length = 72 ∧
    (∀ c ∈ computeDCTHash resizeGray img1, c = '0' ∨ c = '1') ∧
    (img1 = img2 →
      ComputeDCTHash resizeGray img1 = ComputeDCTHash resizeGray img2) ∧
    (ComputeDCTHash resizeGray img1).length = 79 ∧
    (∀ c ∈ ComputeDCTHash resizeGray img1, c = '0' ∨ c = '1') := by
  refine ⟨fun h => by rw [h], ?_, ?_, fun h => by rw [h], ?_, ?_⟩
  · simp [computeDCTHash, blockBits_length, rowPairBits_length]
  · intro c hc
    simp only [computeDCTHash, List.mem_append] at hc
    rcases hc with hc | hc
    · exact blockBits_binary _ c hc
    · exact rowPairBits_binary _ c hc
  · simp [ComputeDCTHash, blockBits_length, rowPairBits_length, diagBits_length]
  · intro c hc
    simp only [ComputeDCTHash, List.mem_append] at hc
    rcases hc with (hc | hc) | hc
    · exact blockBits_binary _ c hc
    · exact rowPairBits_binary _ c hc
    · exact diagBits_binary _ c hc

/-- Witness for C7 at the identity resampler and the all-black image: the
determinism hypotheses hold by reflexivity. -/
theorem c7_witness :
    ((fun _ _ => 0 : Img) = (fun _ _ => 0 : Img) →
      computeDCTHash (fun i => i) (fun _ _ => 0) =
        computeDCTHash (fun i => i) (fun _ _ => 0)) ∧
    (computeDCTHash (fun i => i) (fun _ _ => 0)).length = 72 ∧
    (∀ c ∈ computeDCTHash (fun i => i) (fun _ _ => 0), c = '0' ∨ c = '1') ∧
    ((fun _ _ => 0 : Img) = (fun _ _ => 0 : Img) →
      ComputeDCTHash (fun i => i) (fun _ _ => 0) =
        ComputeDCTHash (fun i => i) (fun _ _ => 0)) ∧
    (ComputeDCTHash (fun i => i) (fun _ _ => 0)).length = 79 ∧
    (∀ c ∈ ComputeDCTHash (fun i => i) (fun _ _ => 0), c = '0' ∨ c = '1') :=
  c7_fingerprint_deterministic_fixed_length (fun i => i) (fun _ _ => 0) (fun _ _ => 0)

/-! ## C4: HashSimilarity -/

theorem countP_zip_eq (a b : List Char) (h : a.length = b.length) :
    (a.zip b).countP (fun p => p.1 ≠ p.2) = hammingRef a b := by
  induction a generalizing b with
  | nil => simp [hammingRef]
  | cons x xs ih =>
    cases b with
    | nil => simp at h
    | cons y ys =>
      simp only [List.length_cons, Nat.succ_inj] at h
      simp only [List.zip_cons_cons, List.countP_cons, hammingRef, List.length_cons]
      rw [List.range_succ_eq_map]
      rw [List.filter_cons]
      simp only [List.getD_cons_zero, List.getD_cons_succ, List.filter_map, List.length_map]
      rw [ih ys h]
      simp only [hammingRef, Function.comp_def]
      by_cases hxy : x = y <;> simp [hxy, List.countP_eq_length_filter]

/-- C4: HashSimilarity returns the LengthMismatch error exactly when the two
fingerprints have different lengths, and for equal lengths it returns
100 * (1 - hammingDistance/length), the Hamming distance counting the index
positions at which the strings differ. -/
theorem c4_hash_similarity_score (a b : List Char) :
    (HashSimilarity a b = .error .lengthMismatch ↔ a.length ≠ b.length) ∧
    (a.length = b.length →
      HashSimilarity a b =
        .ok (100 * (1 - (hammingRef a b : ℚ) / (a.length : ℚ)))) := by
  constructor
  · constructor
    · intro h
      by_contra hlen
      simp [HashSimilarity, HammingDistance, hlen] at h
    · intro hlen
      simp [HashSimilarity, HammingDistance, hlen]
  · intro hlen
    have hne : ¬ a.length ≠ b.length := by simp [hlen]
    simp only [HashSimilarity, HammingDistance, if_neg hne]
    rw [countP_zip_eq a b hlen]
    congr 1
    ring

/-- Witness for C4 on the fingerprints "10" and "11": equal lengths, Hamming
distance 1, score 50. -/
theorem c4_witness :
    ((HashSimilarity ['1', '0'] ['1', '1'] = .error .lengthMismatch ↔
        (['1', '0'] : List Char).length ≠ (['1', '1'] : List Char).length) ∧
      ((['1', '0'] : List Char).length = (['1', '1'] : List Char).length →
        HashSimilarity ['1', '0'] ['1', '1'] =
          .ok (100 * (1 - (hammingRef ['1', '0'] ['1', '1'] : ℚ) /
            ((['1', '0'] : List Char).length : ℚ))))) ∧
    HashSimilarity ['1', '0'] ['1', '1'] = .ok 50 :=
  ⟨c4_hash_similarity_score ['1', '0'] ['1', '1'], by
    norm_num [HashSimilarity, HammingDistance, List.countP_cons, List.countP_nil,
      show ¬ (('0' : Char) = '1') by decide]⟩

/-! ## C2: descriptor similarity

Two divergences from the claim: the source multiplies the cosine by 100
(range [-100, 100]) instead of rescaling it from [-1, 1] to [0, 100], and
the ML-recognizer comparison CompareFeatures treats a length mismatch as a
hard error, not as a non-fatal score 0. -/

/-- C2 counterexample: on the one-component vectors (1) and (-1) the
built-in similarity returns -100, while a cosine of -1 rescaled from
[-1, 1] to [0, 100] would be 0; and on vectors of lengths 1 and 2 the
ML-recognizer comparison returns the dimension-mismatch error rather than
a non-fatal score 0. -/
theorem c2_counterexample :
    cosineSimilarity [1] [-1] = -100 ∧
    rescaleCosine (cosineRef [1] [-1]) = 0 ∧ (-100 : ℝ) ≠ 0 ∧
    CompareFeatures [1] [1, 1] = .error .dimensionMismatch := by
  refine ⟨?_, ?_, by norm_num, ?_⟩
  · simp [cosineSimilarity]
  · simp [cosineRef, rescaleCosine]
  · simp [CompareFeatures]

/-- C2 amended: the built-in descriptor similarity (cosineSimilarity of
handler.go and helper/image) returns score 0 — non-fatally, without
error — whenever the vectors have different lengths or either has zero
magnitude (nonpositive sum of squares), and otherwise the cosine
similarity multiplied by 100, ranging over [-100, 100] rather than
rescaled to [0, 100]; the ML-recognizer comparison (CompareFeatures of
internal/imageprocessing) instead fails with a hard dimension-mismatch
error exactly when the lengths differ, returns 0 without error when
either vector has zero magnitude, and otherwise also returns the cosine
multiplied by 100. -/
theorem c2_descriptor_similarity (a b : List ℝ) :
    (a.length ≠ b.length → cosineSimilarity a b = 0) ∧
    ((a.map (fun x => x * x)).sum ≤ 0 ∨ (b.map (fun x => x * x)).sum ≤ 0 →
      cosineSimilarity a b = 0) ∧
    (a.length = b.length → 0 < (a.map (fun x => x * x)).sum →
      0 < (b.map (fun x => x * x)).sum →
      cosineSimilarity a b = 100 * cosineRef a b) ∧
    (CompareFeatures a b = .error .dimensionMismatch ↔ a.length ≠ b.length) ∧
    (a.length = b.length →
      (a.map (fun x => x * x)).sum = 0 ∨ (b.map (fun x => x * x)).sum = 0 →
      CompareFeatures a b = .ok 0) ∧
    (a.length = b.length → (a.map (fun x => x * x)).sum ≠ 0 →
      (b.map (fun x => x * x)).sum ≠ 0 →
      CompareFeatures a b = .ok (100 * cosineRef a b)) := by
  refine ⟨fun h => by simp [cosineSimilarity, h], fun h => ?_, fun h1 h2 h3 => ?_,
    ⟨fun h => ?_, fun hlen => by simp [CompareFeatures, hlen]⟩,
    fun h1 hz => ?_, fun h1 hn1 hn2 => ?_⟩
  · by_cases hlen : a.length ≠ b.length
    · simp [cosineSimilarity, hlen]
    · simp [cosineSimilarity, hlen, h]
  · have hg : ¬ ((a.map (fun x => x * x)).sum ≤ 0 ∨
        (b.map (fun x => x * x)).sum ≤ 0) := by
      push_neg
      exact ⟨h2, h3⟩
    simp only [cosineSimilarity, cosineRef]
    rw [if_neg (not_not_intro h1), if_neg hg]
    ring
  · by_contra hlen
    simp only [CompareFeatures] at h
    rw [if_neg (not_not_intro hlen)] at h
    split at h <;> simp at h
  · simp only [CompareFeatures]
    rw [if_neg (not_not_intro h1), if_pos hz]
  · have hg : ¬ ((a.map (fun x => x * x)).sum = 0 ∨
        (b.map (fun x => x * x)).sum = 0) := by
      push_neg
      exact ⟨hn1, hn2⟩
    simp only [CompareFeatures, cosineRef]
    rw [if_neg (not_not_intro h1), if_neg hg]
    congr 1
    ring

/-- Witness for C2 on the vectors (1) and (2): equal lengths and positive
(hence nonzero) magnitudes; the built-in score is 100 times the cosine,
and the ML-recognizer comparison returns the same value without error. -/
theorem c2_witness :
    ([(1 : ℝ)].length = [(2 : ℝ)].length) ∧
    0 < ([(1 : ℝ)].map (fun x => x * x)).sum ∧
    0 < ([(2 : ℝ)].map (fun x => x * x)).sum ∧
    ([(1 : ℝ)].map (fun x => x * x)).sum ≠ 0 ∧
    ([(2 : ℝ)].map (fun x => x * x)).sum ≠ 0 ∧
    cosineSimilarity [1] [2] = 100 * cosineRef [1] [2] ∧
    CompareFeatures [1] [2] = .ok (100 * cosineRef [1] [2]) :=
  ⟨rfl, by norm_num, by norm_num, by norm_num, by norm_num,
    (c2_descriptor_similarity [1] [2]).2.2.1 rfl (by norm_num) (by norm_num),
    (c2_descriptor_similarity [1] [2]).2.2.2.2.2 rfl (by norm_num) (by norm_num)⟩

/-! ## C6: queries against the empty index -/

theorem findMatchByFeatures_nil (features : List ℝ) (threshold : ℝ) :
    findMatchByFeatures [] features threshold =
      (if threshold ≤ 0 then true else false, "", 0) := by
  simp [findMatchByFeatures]

theorem hashFallback_nil (chash : Img → List Char) (img : Img) (threshold : ℝ)
    (method : String) :
    hashFallback chash [] img threshold method = (false, "", 0, method) := by
  simp [hashFallback]

/-- C6 counterexample: on the empty index, in hybrid mode with threshold 0,
the handler FindMatch reports a match (with empty filename and score 0,
method "ml"), not matched=false. -/
theorem c6_counterexample :
    FindMatch (fun _ => []) (fun _ => []) ⟨[], true⟩ (fun _ _ => 0) 0 =
      (true, "", 0, "ml") := by
  simp [FindMatch, FindMatchC, findMatchByFeatures_nil]

/-- C6 amended: a query against the empty index always returns score 0 and
an empty filename; matched is false for every threshold in [0, 100] in
hash-only mode and for every positive threshold in hybrid mode, but true in
hybrid mode when the threshold is exactly 0 (the hash-only main.go variant
returns matched=false for every threshold). -/
theorem c6_empty_index_query (extract : Img → List ℝ) (chash : Img → List Char)
    (useML : Bool) (img : Img) (threshold : ℝ) (thresholdQ : ℚ)
    (h0 : 0 ≤ threshold) (h100 : threshold ≤ 100) :
    MainApp.FindMatch chash [] img thresholdQ = (false, "", 0) ∧
    (FindMatch extract chash ⟨[], useML⟩ img threshold).2.2.1 = 0 ∧
    (FindMatch extract chash ⟨[], useML⟩ img threshold).2.1 = "" ∧
    ((FindMatch extract chash ⟨[], useML⟩ img threshold).1 = true ↔
      useML = true ∧ threshold = 0) := by
  refine ⟨by simp [MainApp.FindMatch], ?_⟩
  cases useML with
  | false =>
    simp [FindMatch, FindMatchC, hashFallback_nil]
  | true =>
    by_cases hth : threshold ≤ 0
    · have hzero : threshold = 0 := le_antisymm hth h0
      simp [FindMatch, FindMatchC, findMatchByFeatures_nil, hzero]
    · simp only [FindMatch, FindMatchC, findMatchByFeatures_nil, if_neg hth]
      simp [hashFallback_nil]
      intro h
      exact absurd (h ▸ le_refl (0 : ℝ)) hth

/-- Witness for C6 at threshold 85 in hybrid mode. -/
theorem c6_witness :
    MainApp.FindMatch (fun _ => []) [] (fun _ _ => 0) 85 = (false, "", 0) ∧
    (FindMatch (fun _ => []) (fun _ => []) ⟨[], true⟩ (fun _ _ => 0) 85).2.2.1 = 0 ∧
    (FindMatch (fun _ => []) (fun _ => []) ⟨[], true⟩ (fun _ _ => 0) 85).2.1 = "" ∧
    ((FindMatch (fun _ => []) (fun _ => []) ⟨[], true⟩ (fun _ _ => 0) 85).1 = true ↔
      true = true ∧ (85 : ℝ) = 0) :=
  c6_empty_index_query (fun _ => []) (fun _ => []) true (fun _ _ => 0) 85 85
    (by norm_num) (by norm_num)

/-! ## C1: the hybrid matching policy -/

theorem findMatchFold_snd (records : List (List Char × imageInfo))
    (features : List ℝ) :
    ∀ acc : String × ℝ,
      (records.foldl
        (fun (acc : String × ℝ) entry =>
          match entry.2.Features with
          | none => acc
          | some fs =>
            let similarity := cosineSimilarity features fs
            if acc.2 < similarity then (entry.2.Filename, similarity) else acc)
        acc).2 =
      records.foldl
        (fun m entry =>
          match entry.2.Features with
          | none => m
          | some fs => max m (cosineSimilarity features fs))
        acc.2 := by
  induction records with
  | nil => intro acc; rfl
  | cons e rest ih =>
    intro acc
    simp only [List.foldl_cons]
    cases hf : e.2.Features with
    | none => simp only [hf]; exact ih acc
    | some fs =>
      simp only [hf]
      rw [ih]
      congr 1
      by_cases hlt : acc.2 < cosineSimilarity features fs
      · simp [if_pos hlt, max_eq_right (le_of_lt hlt)]
      · simp [if_neg hlt, max_eq_left (not_lt.mp hlt)]

theorem findMatchByFeatures_score (records : List (List Char × imageInfo))
    (features : List ℝ) (threshold : ℝ) :
    (findMatchByFeatures records features threshold).2.2 =
      descMax records features ∧
    (findMatchByFeatures records features threshold).1 =
      (if threshold ≤ descMax records features then true else false) := by
  have h := findMatchFold_snd records features ("", 0)
  constructor
  · simpa [findMatchByFeatures, descMax] using h
  · simp only [findMatchByFeatures, descMax] at h ⊢
    rw [h]

theorem hashFallback_method (chash : Img → List Char)
    (records : List (List Char × imageInfo)) (img : Img) (threshold : ℝ)
    (method : String) (h : records ≠ []) :
    (hashFallback chash records img threshold method).2.2.2 = "hash" := by
  simp only [hashFallback]
  rw [if_neg (by simpa using h)]

/-- C1 amended: in hybrid mode FindMatch scans the records exhaustively; if
the maximum descriptor score over the records that carry features meets or
exceeds the threshold, it returns matched with that maximum score and
method "ml" (the best-scoring record, not the first one clearing the
threshold); only when the maximum descriptor score is below the threshold
does it fall back to the exhaustive fingerprint-based best-match scan,
whose method is "hash" whenever the index is nonempty (an empty index
short-circuits with the hybrid method label "ml"). -/
theorem c1_hybrid_policy (extract : Img → List ℝ) (chash : Img → List Char)
    (db : ImageDatabase) (img : Img) (threshold : ℝ)
    (hML : db.useML = true) :
    (threshold ≤ descMax db.hashes (extract img) →
      (FindMatch extract chash db img threshold).1 = true ∧
      (FindMatch extract chash db img threshold).2.2.1 =
        descMax db.hashes (extract img) ∧
      (FindMatch extract chash db img threshold).2.2.2 = "ml") ∧
    (descMax db.hashes (extract img) < threshold →
      FindMatch extract chash db img threshold =
        hashFallback chash db.hashes img threshold "ml" ∧
      (db.hashes ≠ [] →
        (FindMatch extract chash db img threshold).2.2.2 = "hash")) := by
  obtain ⟨hscore, hmatch⟩ :=
    findMatchByFeatures_score db.hashes (extract img) threshold
  constructor
  · intro hth
    simp only [FindMatch, FindMatchC, hML, if_true, hmatch, if_pos hth]
    simp [hscore]
  · intro hth
    have hmatch2 : (findMatchByFeatures db.hashes (extract img) threshold).1 = false := by
      rw [hmatch, if_neg (not_le.mpr hth)]
    constructor
    · simp [FindMatch, FindMatchC, hML, hmatch2]
    · intro hne
      simp only [FindMatch, FindMatchC, hML, if_true, hmatch2, Bool.false_eq_true,
        if_false]
      exact hashFallback_method chash db.hashes img threshold "ml" hne

theorem cosineSimilarity_34 : cosineSimilarity [1, 0] [3, 4] = 60 := by
  simp only [cosineSimilarity]
  norm_num
  rw [show (25 : ℝ) = 5 ^ 2 by norm_num, Real.sqrt_sq (by norm_num : (0 : ℝ) ≤ 5)]
  norm_num

theorem cosineSimilarity_self10 : cosineSimilarity [1, 0] [1, 0] = 100 := by
  simp only [cosineSimilarity]
  norm_num

/-- C1 counterexample: with two records "a" (features (3,4), descriptor
score 60) and "b" (features (1,0), score 100), query features (1,0) and
threshold 50, the scan encounters "a" first and its score already meets the
threshold — the spec's greedy scan stops there with ("a", 60) — yet
FindMatch returns the globally best record ("b", 100): the scan does not
return as soon as a record clears the threshold. -/
theorem c1_counterexample :
    findFirstClearing
      [(['h'], ⟨"a", ['h'], some [3, 4]⟩), (['k'], ⟨"b", ['k'], some [1, 0]⟩)]
      [1, 0] 50 = some ("a", 60) ∧
    FindMatch (fun _ => [1, 0]) (fun _ => [])
      ⟨[(['h'], ⟨"a", ['h'], some [3, 4]⟩), (['k'], ⟨"b", ['k'], some [1, 0]⟩)],
        true⟩
      (fun _ _ => 0) 50 = (true, "b", 100, "ml") ∧
    some (("a", 60) : String × ℝ) ≠ some (("b", 100) : String × ℝ) := by
  refine ⟨?_, ?_, by simp⟩
  · norm_num [findFirstClearing, cosineSimilarity_34]
  · norm_num [FindMatch, FindMatchC, findMatchByFeatures, cosineSimilarity_34,
      cosineSimilarity_self10]

/-- Witness for C1 on a one-record index in hybrid mode with threshold 50:
the maximum descriptor score is 100, so the match is reported with score
100 and method "ml". -/
theorem c1_witness :
    (50 : ℝ) ≤ descMax [(['h'], ⟨"a", ['h'], some [1, 0]⟩)] [1, 0] ∧
    ((FindMatch (fun _ => [1, 0]) (fun _ => [])
        ⟨[(['h'], ⟨"a", ['h'], some [1, 0]⟩)], true⟩ (fun _ _ => 0) 50).1 = true ∧
      (FindMatch (fun _ => [1, 0]) (fun _ => [])
        ⟨[(['h'], ⟨"a", ['h'], some [1, 0]⟩)], true⟩ (fun _ _ => 0) 50).2.2.1 =
        descMax [(['h'], ⟨"a", ['h'], some [1, 0]⟩)] [1, 0] ∧
      (FindMatch (fun _ => [1, 0]) (fun _ => [])
        ⟨[(['h'], ⟨"a", ['h'], some [1, 0]⟩)], true⟩ (fun _ _ => 0) 50).2.2.2 =
        "ml") := by
  have hmax : descMax [(['h'], ⟨"a", ['h'], some [1, 0]⟩)] [1, 0] = 100 := by
    norm_num [descMax, cosineSimilarity_self10]
  have h50 : (50 : ℝ) ≤ descMax [(['h'], ⟨"a", ['h'], some [1, 0]⟩)] [1, 0] := by
    rw [hmax]; norm_num
  exact ⟨h50,
    (c1_hybrid_policy (fun _ => [1, 0]) (fun _ => [])
      ⟨[(['h'], ⟨"a", ['h'], some [1, 0]⟩)], true⟩ (fun _ _ => 0) 50 rfl).1 h50⟩

/-! ## C3: duplicate-checked insert -/

theorem mem_mapInsert_self {α : Type} (k : List Char) (v : α)
    (records : List (List Char × α)) : (k, v) ∈ mapInsert k v records := by
  unfold mapInsert
  by_cases h : records.any (fun entry => entry.1 = k)
  · rw [if_pos h]
    rcases List.any_eq_true.mp h with ⟨entry, hmem, hk⟩
    refine List.mem_map.mpr ⟨entry, hmem, ?_⟩
    rw [if_pos (of_decide_eq_true hk)]
  · rw [if_neg h]
    exact List.mem_append_right _ (List.mem_singleton_self _)

/-- C3: AddImage fails with the DuplicateFingerprint error exactly when some
record with the same fingerprint already exists at call time, in which case
nothing is stored; otherwise it stores the new record and returns its
fingerprint as the assigned id; and a second insert of identical image
content always reports the duplicate. -/
theorem c3_insert_duplicate_contract (chash : Img → List Char)
    (extractF : Img → Option (List ℝ))
    (records : List (List Char × database.ImageInfo)) (img : Img)
    (filename : String) :
    ((∃ e, (database.AddImage chash extractF records img filename).1 =
        .error (.duplicateFingerprint e)) ↔
      ∃ entry ∈ records, entry.2.Hash = chash img) ∧
    ((∃ entry ∈ records, entry.2.Hash = chash img) →
      (database.AddImage chash extractF records img filename).2 = records) ∧
    ((¬ ∃ entry ∈ records, entry.2.Hash = chash img) →
      (database.AddImage chash extractF records img filename).1 =
        .ok (chash img) ∧
      (chash img, ⟨filename, chash img, extractF img⟩) ∈
        (database.AddImage chash extractF records img filename).2) ∧
    (∀ filename2, ∃ e,
      (database.AddImage chash extractF
        (database.AddImage chash extractF records img filename).2
        img filename2).1 = .error (.duplicateFingerprint e)) := by
  cases hfind : records.find? (fun entry => entry.2.Hash = chash img) with
  | some ex =>
    have hmem := List.mem_of_find?_eq_some hfind
    have hp := List.find?_some hfind
    have hpred : ex.2.Hash = chash img := by simpa using hp
    refine ⟨⟨fun _ => ⟨ex, hmem, hpred⟩, fun _ => ⟨ex.2.Filename, ?_⟩⟩, fun _ => ?_,
      fun hno => absurd ⟨ex, hmem, hpred⟩ hno, fun filename2 => ?_⟩
    · simp [database.AddImage, hfind]
    · simp [database.AddImage, hfind]
    · refine ⟨ex.2.Filename, ?_⟩
      simp [database.AddImage, hfind]
  | none =>
    have hnone := List.find?_eq_none.mp hfind
    have hnoex : ¬ ∃ entry ∈ records, entry.2.Hash = chash img := by
      rintro ⟨entry, hmem, hhash⟩
      exact absurd (decide_eq_true hhash) (hnone entry hmem)
    refine ⟨⟨fun ⟨e, he⟩ => ?_, fun hex => absurd hex hnoex⟩,
      fun hex => absurd hex hnoex, fun _ => ⟨?_, ?_⟩, fun filename2 => ?_⟩
    · simp [database.AddImage, hfind] at he
    · simp [database.AddImage, hfind]
    · simp only [database.AddImage, hfind]
      exact mem_mapInsert_self _ _ _
    · have hmem2 : (chash img, (⟨filename, chash img, extractF img⟩ :
          database.ImageInfo)) ∈
          (database.AddImage chash extractF records img filename).2 := by
        simp only [database.AddImage, hfind]
        exact mem_mapInsert_self _ _ _
      have hsome : ((database.AddImage chash extractF records img filename).2.find?
          (fun entry => entry.2.Hash = chash img)).isSome := by
        rw [List.find?_isSome]
        exact ⟨_, hmem2, by simp⟩
      cases hfind2 : (database.AddImage chash extractF records img filename).2.find?
          (fun entry => entry.2.Hash = chash img) with
      | none => rw [hfind2] at hsome; simp at hsome
      | some ex2 =>
        refine ⟨ex2.2.Filename, ?_⟩
        simp only [database.AddImage, hfind] at hfind2
        simp [database.AddImage, hfind, hfind2]

/-- Witness for C3: first insert into the empty index succeeds, a second
insert of the same image reports the duplicate. -/
theorem c3_witness :
    ((∃ e, (database.AddImage (fun _ => ['h']) (fun _ => none) [] (fun _ _ => 0)
        "a").1 = .error (.duplicateFingerprint e)) ↔
      ∃ entry ∈ ([] : List (List Char × database.ImageInfo)),
        entry.2.Hash = ['h']) ∧
    (database.AddImage (fun _ => ['h']) (fun _ => none) [] (fun _ _ => 0)
      "a").1 = .ok ['h'] ∧
    (∃ e, (database.AddImage (fun _ => ['h']) (fun _ => none)
      (database.AddImage (fun _ => ['h']) (fun _ => none) [] (fun _ _ => 0) "a").2
      (fun _ _ => 0) "b").1 = .error (.duplicateFingerprint e)) := by
  obtain ⟨hiff, -, hok, htwice⟩ :=
    c3_insert_duplicate_contract (fun _ => ['h']) (fun _ => none) []
      (fun _ _ => 0) "a"
  have hempty : ¬ ∃ entry ∈ ([] : List (List Char × database.ImageInfo)),
      entry.2.Hash = ['h'] := by
    rintro ⟨e, he, -⟩
    exact List.not_mem_nil e he
  exact ⟨hiff, (hok hempty).1, htwice "b"⟩

/-! ## C5: bulk load record count -/

theorem mapInsert_not_mem {α : Type} (k : List Char) (v : α)
    (records : List (List Char × α)) (h : k ∉ records.map Prod.fst) :
    mapInsert k v records = records ++ [(k, v)] := by
  have hany : records.any (fun entry => entry.1 = k) = false := by
    rw [List.any_eq_false]
    intro entry hmem
    simp only [decide_eq_true_eq]
    intro hk
    exact h (List.mem_map.mpr ⟨entry, hmem, hk⟩)
  simp [mapInsert, hany]

/-- The fingerprints of the entries that survive the bulk-load skip rules:
plain files with a supported extension whose decode succeeded. -/
def loadedHashes (chash : Img → List Char) (entries : List database.DirEntry) :
    List (List Char) :=
  entries.filterMap (fun e =>
    if e.isDir then none
    else if database.IsImageFile (database.fileExt e.name) then
      e.content.map chash
    else none)

theorem loadImages_length_aux (chash : Img → List Char)
    (extractF : Img → Option (List ℝ)) :
    ∀ (entries : List database.DirEntry)
      (records : List (List Char × database.ImageInfo)),
      (∀ e ∈ entries, ¬ e.isDir →
        database.IsImageFile (database.fileExt e.name) = true →
        e.content.isSome) →
      (loadedHashes chash entries).Nodup →
      (∀ k ∈ loadedHashes chash entries, k ∉ records.map Prod.fst) →
      (database.LoadImages chash extractF records entries).length =
        records.length + database.countSupported entries := by
  intro entries
  induction entries with
  | nil =>
    intro records _ _ _
    simp [database.LoadImages, database.countSupported]
  | cons e rest ih =>
    intro records hdec hnodup hfresh
    by_cases hdir : e.isDir
    · have hstep : database.loadOne chash extractF records e = records := by
        simp [database.loadOne, hdir]
      have hload : loadedHashes chash (e :: rest) = loadedHashes chash rest := by
        simp [loadedHashes, hdir]
      have hcount : database.countSupported (e :: rest) =
          database.countSupported rest := by
        simp [database.countSupported, hdir]
      rw [hload] at hnodup hfresh
      simpa [database.LoadImages, hstep, hcount] using
        ih records (fun x hx => hdec x (List.mem_cons_of_mem e hx)) hnodup hfresh
    · by_cases hext : database.IsImageFile (database.fileExt e.name) = true
      · have hsome := hdec e (List.mem_cons_self e rest) hdir hext
        obtain ⟨img, hc⟩ := Option.isSome_iff_exists.mp hsome
        have hstep : database.loadOne chash extractF records e =
            records ++ [(chash img, ⟨⟨e.name⟩, chash img, extractF img⟩)] := by
          rw [database.loadOne, if_neg hdir, if_neg (by simp [hext]), hc]
          exact mapInsert_not_mem _ _ _
            (hfresh (chash img) (by simp [loadedHashes, hdir, hext, hc]))
        have hload : loadedHashes chash (e :: rest) =
            chash img :: loadedHashes chash rest := by
          simp [loadedHashes, hdir, hext, hc]
        have hcount : database.countSupported (e :: rest) =
            database.countSupported rest + 1 := by
          simp [database.countSupported, hdir, hext, Nat.add_comm]
        rw [hload] at hnodup hfresh
        have htail := ih (records ++ [(chash img, ⟨⟨e.name⟩, chash img, extractF img⟩)])
          (fun x hx => hdec x (List.mem_cons_of_mem e hx))
          (List.nodup_cons.mp hnodup).2
          (by
            intro k hk
            simp only [List.map_append, List.map_cons, List.map_nil,
              List.mem_append, List.mem_singleton]
            rintro (hin | rfl)
            · exact hfresh k (List.mem_cons_of_mem _ hk) hin
            · exact (List.nodup_cons.mp hnodup).1 hk)
        simp only [database.LoadImages, List.foldl_cons] at htail ⊢
        rw [hstep, htail, hcount]
        simp only [List.length_append, List.length_singleton]
        omega
      · have hstep : database.loadOne chash extractF records e = records := by
          rw [database.loadOne, if_neg hdir, if_pos (by simp [hext])]
        have hload : loadedHashes chash (e :: rest) = loadedHashes chash rest := by
          simp [loadedHashes, hdir, hext]
        have hcount : database.countSupported (e :: rest) =
            database.countSupported rest := by
          simp [database.countSupported, hdir, hext]
        rw [hload] at hnodup hfresh
        simpa [database.LoadImages, hstep, hcount] using
          ih records (fun x hx => hdec x (List.mem_cons_of_mem e hx)) hnodup hfresh

/-- C5 amended: for a directory whose N supported-extension files all decode
successfully and have pairwise distinct fingerprints, bulk load yields
exactly N records (subdirectories and unsupported files contribute nothing,
in any iteration order); with duplicate fingerprints among the files the
later record overwrites the earlier one and the count drops. -/
theorem c5_bulk_load_count (chash : Img → List Char)
    (extractF : Img → Option (List ℝ)) (entries : List database.DirEntry)
    (hdec : ∀ e ∈ entries, ¬ e.isDir →
      database.IsImageFile (database.fileExt e.name) = true → e.content.isSome)
    (hnodup : (loadedHashes chash entries).Nodup) :
    (database.LoadImages chash extractF [] entries).length =
      database.countSupported entries := by
  simpa using loadImages_length_aux chash extractF entries [] hdec hnodup (by simp)

/-- C5 counterexample: a directory with two supported files of identical
pixel content (hence identical fingerprints) bulk-loads to a single record,
not the N = 2 the claim demands. -/
theorem c5_counterexample :
    (database.LoadImages (computeDCTHash (fun i => i)) (fun _ => none) []
      [⟨['a', '.', 'p', 'n', 'g'], false, some (fun _ _ => 0)⟩,
       ⟨['b', '.', 'p', 'n', 'g'], false, some (fun _ _ => 0)⟩]).length = 1 ∧
    database.countSupported
      [⟨['a', '.', 'p', 'n', 'g'], false, some (fun _ _ => 0)⟩,
       ⟨['b', '.', 'p', 'n', 'g'], false, some (fun _ _ => 0)⟩] = 2 := by
  constructor
  · have hext1 : database.IsImageFile (database.fileExt
        ['a', '.', 'p', 'n', 'g']) = true := by decide
    have hext2 : database.IsImageFile (database.fileExt
        ['b', '.', 'p', 'n', 'g']) = true := by decide
    simp [database.LoadImages, database.loadOne, hext1, hext2, mapInsert]
  · decide

/-- Witness for C5: one decodable supported file, one unsupported file, one
subdirectory give exactly one record. -/
theorem c5_witness :
    (∀ e ∈ [(⟨['a', '.', 'p', 'n', 'g'], false, some (fun _ _ => 0)⟩ :
        database.DirEntry),
        ⟨['b', '.', 't', 'x', 't'], false, none⟩, ⟨['d'], true, none⟩],
      ¬ e.isDir → database.IsImageFile (database.fileExt e.name) = true →
        e.content.isSome) ∧
    (loadedHashes (fun _ => ['h'])
      [⟨['a', '.', 'p', 'n', 'g'], false, some (fun _ _ => 0)⟩,
       ⟨['b', '.', 't', 'x', 't'], false, none⟩, ⟨['d'], true, none⟩]).Nodup ∧
    (database.LoadImages (fun _ => ['h']) (fun _ => none) []
      [⟨['a', '.', 'p', 'n', 'g'], false, some (fun _ _ => 0)⟩,
       ⟨['b', '.', 't', 'x', 't'], false, none⟩, ⟨['d'], true, none⟩]).length =
      database.countSupported
        [⟨['a', '.', 'p', 'n', 'g'], false, some (fun _ _ => 0)⟩,
         ⟨['b', '.', 't', 'x', 't'], false, none⟩, ⟨['d'], true, none⟩] ∧
    database.countSupported
      [⟨['a', '.', 'p', 'n', 'g'], false, some (fun _ _ => 0)⟩,
       ⟨['b', '.', 't', 'x', 't'], false, none⟩, ⟨['d'], true, none⟩] = 1 := by
  have hdec : ∀ e ∈ [(⟨['a', '.', 'p', 'n', 'g'], false, some (fun _ _ => 0)⟩ :
      database.DirEntry),
      ⟨['b', '.', 't', 'x', 't'], false, none⟩, ⟨['d'], true, none⟩],
      ¬ e.isDir → database.IsImageFile (database.fileExt e.name) = true →
        e.content.isSome := by
    intro e he
    fin_cases he
    · intro _ _; rfl
    · intro _ hext; exact absurd hext (by decide)
    · intro hdir _; exact absurd rfl hdir
  have hnodup : (loadedHashes (fun _ => ['h'])
      [⟨['a', '.', 'p', 'n', 'g'], false, some (fun _ _ => 0)⟩,
       ⟨['b', '.', 't', 'x', 't'], false, none⟩, ⟨['d'], true, none⟩]).Nodup := by
    have h1 : database.IsImageFile (database.fileExt
        ['a', '.', 'p', 'n', 'g']) = true := by decide
    have h2 : database.IsImageFile (database.fileExt
        ['b', '.', 't', 'x', 't']) = false := by decide
    simp [loadedHashes, h1, h2]
  exact ⟨hdec, hnodup,
    c5_bulk_load_count (fun _ => ['h']) (fun _ => none) _ hdec hnodup, by decide⟩

/-! ## C8: the no-duplicate-fingerprint invariant -/

theorem inv_mapInsert (k : List Char) (v : database.ImageInfo)
    (records : List (List Char × database.ImageInfo))
    (hInv : database.Inv records) (hv : v.Hash = k) :
    database.Inv (mapInsert k v records) := by
  obtain ⟨hkeys, hhash⟩ := hInv
  unfold mapInsert
  by_cases hany : records.any (fun entry => entry.1 = k)
  · rw [if_pos hany]
    constructor
    · have hsame : (records.map (fun entry =>
          if entry.1 = k then (k, v) else entry)).map Prod.fst =
          records.map Prod.fst := by
        rw [List.map_map]
        refine List.map_congr_left (fun entry _ => ?_)
        by_cases hk : entry.1 = k
        · simp [hk]
        · simp [hk]
      rw [hsame]
      exact hkeys
    · intro entry hmem
      rcases List.mem_map.mp hmem with ⟨orig, horig, heq⟩
      by_cases hk : orig.1 = k
      · rw [if_pos hk] at heq
        rw [← heq]
        exact hv
      · rw [if_neg hk] at heq
        rw [← heq]
        exact hhash orig horig
  · rw [if_neg hany]
    have hany2 : records.any (fun entry => entry.1 = k) = false := by
      cases h2 : records.any (fun entry => entry.1 = k) with
      | false => rfl
      | true => exact absurd h2 hany
    have hknotin : k ∉ records.map Prod.fst := by
      intro hk
      rcases List.mem_map.mp hk with ⟨entry, hmem, hfst⟩
      have hfalse := List.any_eq_false.mp hany2 entry hmem
      simp [hfst] at hfalse
    constructor
    · rw [List.map_append]
      simp only [List.map_cons, List.map_nil]
      rw [List.nodup_append]
      refine ⟨hkeys, List.nodup_singleton k, fun a hal hak => ?_⟩
      exact hknotin ((List.mem_singleton.mp hak) ▸ hal)
    · intro entry hmem
      rcases List.mem_append.mp hmem with hmem | hmem
      · exact hhash entry hmem
      · rw [List.mem_singleton.mp hmem]
        exact hv

theorem inv_addImage (chash : Img → List Char)
    (extractF : Img → Option (List ℝ))
    (records : List (List Char × database.ImageInfo)) (img : Img)
    (filename : String) (hInv : database.Inv records) :
    database.Inv (database.AddImage chash extractF records img filename).2 := by
  unfold database.AddImage
  cases hfind : records.find? (fun entry => entry.2.Hash = chash img) with
  | some ex => simpa [hfind] using hInv
  | none =>
    simp only [hfind]
    exact inv_mapInsert _ _ _ hInv rfl

theorem inv_loadOne (chash : Img → List Char)
    (extractF : Img → Option (List ℝ))
    (records : List (List Char × database.ImageInfo))
    (entry : database.DirEntry) (hInv : database.Inv records) :
    database.Inv (database.loadOne chash extractF records entry) := by
  unfold database.loadOne
  by_cases hdir : entry.isDir
  · simpa [hdir] using hInv
  · rw [if_neg hdir]
    by_cases hext : database.IsImageFile (database.fileExt entry.name) = true
    · rw [if_neg (by simp [hext])]
      cases hc : entry.content with
      | none => exact hInv
      | some img => exact inv_mapInsert _ _ _ hInv rfl
    · rw [if_pos (by simp [hext])]
      exact hInv

theorem inv_loadImages (chash : Img → List Char)
    (extractF : Img → Option (List ℝ)) (entries : List database.DirEntry) :
    ∀ records, database.Inv records →
      database.Inv (database.LoadImages chash extractF records entries) := by
  induction entries with
  | nil => intro records hInv; exact hInv
  | cons e rest ih =>
    intro records hInv
    exact ih _ (inv_loadOne chash extractF records e hInv)

theorem inv_dbRun (chash : Img → List Char)
    (extractF : Img → Option (List ℝ)) (ops : List database.DbOp) :
    database.Inv (database.dbRun chash extractF ops) := by
  have hstep : ∀ (records : List (List Char × database.ImageInfo))
      (op : database.DbOp), database.Inv records →
      database.Inv (database.dbStep chash extractF records op) := by
    intro records op hInv
    cases op with
    | bulkLoad entries => exact inv_loadImages chash extractF entries records hInv
    | insert img filename => exact inv_addImage chash extractF records img filename hInv
    | query img threshold => exact hInv
  unfold database.dbRun
  generalize hstart : ([] : List (List Char × database.ImageInfo)) = start
  have hInv0 : database.Inv start := by
    rw [← hstart]
    exact ⟨List.nodup_nil, by intro entry h; exact absurd h (List.not_mem_nil entry)⟩
  clear hstart
  induction ops generalizing start with
  | nil => exact hInv0
  | cons op rest ih =>
    exact ih _ (hstep start op hInv0)

/-- C8: in every index state reachable from the empty index by any sequence
of bulk loads, inserts and queries, the stored fingerprints are pairwise
distinct (no two records share a fingerprint). -/
theorem c8_fingerprint_uniqueness_invariant (chash : Img → List Char)
    (extractF : Img → Option (List ℝ)) (ops : List database.DbOp) :
    ((database.dbRun chash extractF ops).map
      (fun entry => entry.2.Hash)).Nodup := by
  obtain ⟨hkeys, hhash⟩ := inv_dbRun chash extractF ops
  have heq : (database.dbRun chash extractF ops).map (fun entry => entry.2.Hash) =
      (database.dbRun chash extractF ops).map Prod.fst :=
    List.map_congr_left (fun entry hmem => hhash entry hmem)
  rw [heq]
  exact hkeys

/-! ## C9: hash-only mode performs no descriptor extraction -/

theorem hStep_keeps_ml_off (extract : Img → List ℝ) (chash : Img → List Char)
    (db : ImageDatabase) (op : HOp) (hml : db.useML = false)
    (hop : op ≠ HOp.toggle "true") :
    (hStep extract chash db op).useML = false := by
  cases op with
  | toggle enable =>
    by_cases htrue : enable = "true"
    · exact absurd (by rw [htrue]) hop
    · by_cases hfalse : enable = "false"
      · simp [hStep, htrue, hfalse]
      · simpa [hStep, htrue, hfalse] using hml
  | recognize img threshold => exact hml
  | add img filename => exact hml

theorem findMatchC_calls_ml_off (extract : Img → List ℝ)
    (chash : Img → List Char) (db : ImageDatabase) (img : Img)
    (threshold : ℝ) (hml : db.useML = false) :
    (FindMatchC extract chash db img threshold).2 = 0 := by
  simp [FindMatchC, hml]

theorem traceQueryCalls_ml_off (extract : Img → List ℝ)
    (chash : Img → List Char) :
    ∀ (ops : List HOp) (db : ImageDatabase), db.useML = false →
      (∀ op ∈ ops, op ≠ HOp.toggle "true") →
      ∀ n ∈ traceQueryCalls extract chash db ops, n = 0 := by
  intro ops
  induction ops with
  | nil =>
    intro db _ _ n hn
    exact absurd hn (List.not_mem_nil n)
  | cons op rest ih =>
    intro db hml hops n hn
    have hobody := hops op (List.mem_cons_self op rest)
    have hrest : ∀ o ∈ rest, o ≠ HOp.toggle "true" :=
      fun o ho => hops o (List.mem_cons_of_mem op ho)
    have hml2 := hStep_keeps_ml_off extract chash db op hml hobody
    cases op with
    | recognize img threshold =>
      rcases List.mem_cons.mp hn with hn | hn
      · rw [hn]
        exact findMatchC_calls_ml_off extract chash db img threshold hml
      · exact ih _ hml2 hrest n hn
    | toggle enable => exact ih _ hml2 hrest n hn
    | add img filename => exact ih _ hml2 hrest n hn

/-- C9: once ToggleMode(false) has switched the flag off, every Query in any
following sequence of handler operations that contains no ToggleMode(true)
performs zero invocations of the descriptor extractor on its query
image. -/
theorem c9_toggle_off_queries_skip_extractor (extract : Img → List ℝ)
    (chash : Img → List Char) (db0 : ImageDatabase) (ops : List HOp)
    (hops : ∀ op ∈ ops, op ≠ HOp.toggle "true") :
    ∀ n ∈ traceQueryCalls extract chash
      (hStep extract chash db0 (.toggle "false")) ops, n = 0 := by
  have hml : (hStep extract chash db0 (.toggle "false")).useML = false := by
    simp [hStep]
  exact traceQueryCalls_ml_off extract chash ops _ hml hops

/-- Witness for C9: from an ML-enabled database, toggle off, then a query, a
status-only toggle, an insert, and another query: both queries perform zero
extractor calls. -/
theorem c9_witness :
    (∀ op ∈ [HOp.recognize (fun _ _ => 0) 50, HOp.toggle "status",
        HOp.add (fun _ _ => 0) "n", HOp.recognize (fun _ _ => 0) 10],
      op ≠ HOp.toggle "true") ∧
    ∀ n ∈ traceQueryCalls (fun _ => [1]) (fun _ => ['h'])
      (hStep (fun _ => [1]) (fun _ => ['h']) ⟨[], true⟩ (.toggle "false"))
      [HOp.recognize (fun _ _ => 0) 50, HOp.toggle "status",
        HOp.add (fun _ _ => 0) "n", HOp.recognize (fun _ _ => 0) 10], n = 0 := by
  have hops : ∀ op ∈ [HOp.recognize (fun _ _ => 0) 50, HOp.toggle "status",
      HOp.add (fun _ _ => 0) "n", HOp.recognize (fun _ _ => 0) 10],
      op ≠ HOp.toggle "true" := by
    intro op hop
    fin_cases hop <;> simp
  exact ⟨hops, c9_toggle_off_queries_skip_extractor (fun _ => [1])
    (fun _ => ['h']) ⟨[], true⟩ _ hops⟩

/-! ## C10: totality of the HOG extractor -/

theorem binIndexRaw_bounds (gy gx : ℤ) :
    0 ≤ binIndexRaw gy gx ∧ binIndexRaw gy gx ≤ 16 := by
  have hpi := Real.pi_pos
  have harg_le : atan2 (gy : ℝ) (gx : ℝ) ≤ Real.pi := Complex.arg_le_pi _
  have harg_gt : -Real.pi < atan2 (gy : ℝ) (gx : ℝ) := Complex.neg_pi_lt_arg _
  have hv_pos : 0 ≤ (atan2 (gy : ℝ) (gx : ℝ) + Real.pi) * 8 / Real.pi := by
    apply le_of_lt
    apply div_pos _ hpi
    nlinarith
  have hv_le : (atan2 (gy : ℝ) (gx : ℝ) + Real.pi) * 8 / Real.pi ≤ 16 := by
    rw [div_le_iff₀ hpi]
    nlinarith
  constructor
  · exact Int.floor_nonneg.mpr hv_pos
  · calc binIndexRaw gy gx ≤ ⌊(16 : ℝ)⌋ := Int.floor_mono hv_le
    _ = 16 := by norm_num

theorem binIndex_bounds (gy gx : ℤ) :
    0 ≤ binIndex gy gx ∧ binIndex gy gx < 16 := by
  obtain ⟨h0, h16⟩ := binIndexRaw_bounds gy gx
  unfold binIndex
  by_cases h : binIndexRaw gy gx = 16
  · simp [h]
  · rw [if_neg h]
    exact ⟨h0, lt_of_le_of_ne h16 h⟩

theorem setAt_some (l : List ℝ) (i : ℤ) (x : ℝ) (h0 : 0 ≤ i)
    (hlt : i.toNat < l.length) :
    ∃ l2, setAt l i x = some l2 ∧ l2.length = l.length := by
  unfold setAt
  rw [dif_pos ⟨h0, hlt⟩]
  exact ⟨_, rfl, List.length_set l _ _⟩

theorem histFold_some (g : Img) (ps : List (Nat × Nat)) :
    ∀ (h0 : List ℝ), h0.length = 16 →
      ∃ h2, ps.foldl
        (fun acc p =>
          acc.bind (fun histogram =>
            let gx : ℤ := (g (p.1 + 1) p.2 : ℤ) - (g (p.1 - 1) p.2 : ℤ)
            let gy : ℤ := (g p.1 (p.2 + 1) : ℤ) - (g p.1 (p.2 - 1) : ℤ)
            let magnitude := Real.sqrt (((gx * gx + gy * gy : ℤ) : ℝ))
            setAt histogram (binIndex gy gx) magnitude))
        (some h0) = some h2 ∧ h2.length = 16 := by
  induction ps with
  | nil =>
    intro h0 hlen
    exact ⟨h0, rfl, hlen⟩
  | cons p rest ih =>
    intro h0 hlen
    obtain ⟨hbin0, hbin16⟩ := binIndex_bounds
      ((g p.1 (p.2 + 1) : ℤ) - (g p.1 (p.2 - 1) : ℤ))
      ((g (p.1 + 1) p.2 : ℤ) - (g (p.1 - 1) p.2 : ℤ))
    have hlt : (binIndex ((g p.1 (p.2 + 1) : ℤ) - (g p.1 (p.2 - 1) : ℤ))
        ((g (p.1 + 1) p.2 : ℤ) - (g (p.1 - 1) p.2 : ℤ))).toNat < h0.length := by
      rw [hlen]
      omega
    obtain ⟨l2, hset, hlen2⟩ := setAt_some h0 _
      (Real.sqrt (((((g (p.1 + 1) p.2 : ℤ) - (g (p.1 - 1) p.2 : ℤ)) *
          ((g (p.1 + 1) p.2 : ℤ) - (g (p.1 - 1) p.2 : ℤ)) +
          ((g p.1 (p.2 + 1) : ℤ) - (g p.1 (p.2 - 1) : ℤ)) *
          ((g p.1 (p.2 + 1) : ℤ) - (g p.1 (p.2 - 1) : ℤ)) : ℤ) : ℝ)))
      hbin0 hlt
    simp only [List.foldl_cons, Option.some_bind]
    rw [hset]
    exact ih l2 (hlen2.trans hlen)

theorem cellHistogram_some (g : Img) (bx byy : Nat) :
    ∃ h, cellHistogram g bx byy = some h ∧ h.length = 16 :=
  histFold_some g (cellPixels bx byy) (List.replicate 16 0) (by simp)

theorem normalizeHist_length (histogram : List ℝ) :
    (normalizeHist histogram).length = histogram.length := by
  simp [normalizeHist]

theorem featuresStep (g : Img) (bx byy : Nat) (fs : List ℝ) :
    ∃ n, ((some fs).bind (fun features =>
      (cellHistogram g bx byy).map
        (fun histogram => features ++ normalizeHist histogram))) =
      some (fs ++ n) ∧ n.length = 16 := by
  obtain ⟨h, hc, hl⟩ := cellHistogram_some g bx byy
  refine ⟨normalizeHist h, ?_, by rw [normalizeHist_length, hl]⟩
  rw [Option.some_bind, hc]
  rfl

/-- C10: the built-in HOG descriptor extractor is total — the orientation
bin index computed from atan2 always lies in [0, 16), so the histogram
accumulation never indexes out of bounds — and for every input image and
every resampler it returns a feature vector of exactly 144 components
(3x3 cells times 16 orientation bins). -/
theorem c10_hog_extractor_total (resizeGray64 : Img → Img) (img : Img)
    (gy gx : ℤ) :
    (0 ≤ binIndex gy gx ∧ binIndex gy gx < 16) ∧
    ∃ v, extractImageFeatures resizeGray64 img = some v ∧ v.length = 144 := by
  refine ⟨binIndex_bounds gy gx, ?_⟩
  unfold extractImageFeatures
  rw [show List.range 3 = [0, 1, 2] from rfl]
  simp only [List.foldl_cons, List.foldl_nil]
  obtain ⟨n1, e1, l1⟩ := featuresStep (resizeGray64 img) 0 0 []
  rw [e1]
  obtain ⟨n2, e2, l2⟩ := featuresStep (resizeGray64 img) 1 0 ([] ++ n1)
  rw [e2]
  obtain ⟨n3, e3, l3⟩ := featuresStep (resizeGray64 img) 2 0 ([] ++ n1 ++ n2)
  rw [e3]
  obtain ⟨n4, e4, l4⟩ := featuresStep (resizeGray64 img) 0 1 ([] ++ n1 ++ n2 ++ n3)
  rw [e4]
  obtain ⟨n5, e5, l5⟩ := featuresStep (resizeGray64 img) 1 1
    ([] ++ n1 ++ n2 ++ n3 ++ n4)
  rw [e5]
  obtain ⟨n6, e6, l6⟩ := featuresStep (resizeGray64 img) 2 1
    ([] ++ n1 ++ n2 ++ n3 ++ n4 ++ n5)
  rw [e6]
  obtain ⟨n7, e7, l7⟩ := featuresStep (resizeGray64 img) 0 2
    ([] ++ n1 ++ n2 ++ n3 ++ n4 ++ n5 ++ n6)
  rw [e7]
  obtain ⟨n8, e8, l8⟩ := featuresStep (resizeGray64 img) 1 2
    ([] ++ n1 ++ n2 ++ n3 ++ n4 ++ n5 ++ n6 ++ n7)
  rw [e8]
  obtain ⟨n9, e9, l9⟩ := featuresStep (resizeGray64 img) 2 2
    ([] ++ n1 ++ n2 ++ n3 ++ n4 ++ n5 ++ n6 ++ n7 ++ n8)
  rw [e9]
  refine ⟨_, rfl, ?_⟩
  simp [List.length_append, l1, l2, l3, l4, l5, l6, l7, l8, l9]
